import Mathlib

/-!
Verification of the neonote item persistence layer (src/src/main.rs).

The Rust source stores items in an embedded key-value store as
serde_json-encoded records.  This development embeds the data model, the
JSON codec at the JSON-value level (serde derives a field-per-key object
encoding, with Option fields serialized as null when absent and accepted
as missing-or-null when decoding), the merge semantics of update_item,
delete_item and get_item over a store modelled as a partial map from id
to stored JSON value, the filter query of get_filtered_items, and the
quick-capture parser of capture_item.
-/

set_option maxHeartbeats 1000000

/-- JSON values, the codomain of the serde_json encoding used by the
Rust source.  Numbers are modelled as unbounded integers; the machine
ranges of i64 and u32 are checked explicitly where serde would. -/
inductive Json where
  | null : Json
  | bool (b : Bool) : Json
  | num (n : Int) : Json
  | str (s : String) : Json
  | arr (xs : List Json) : Json
  | obj (fields : List (String × Json)) : Json

/-- CodeLocation struct of main.rs lines 18-22.  line_number is u32 in
the source; here a Nat whose u32 bound is checked by the decoder. -/
structure CodeLocation where
  file_path : String
  line_number : Nat
deriving DecidableEq

/-- Item struct of main.rs lines 24-38.  The serde rename of item_type
to the JSON key "type" is reflected in the codec below.  created_at and
the optional timestamps are i64 in the source, modelled as Int with the
i64 range checked by the decoder. -/
structure Item where
  id : String
  item_type : String
  title : String
  content : Option String
  tags : List String
  code_location : Option CodeLocation
  created_at : Int
  completed : Option Bool
  due_date : Option Int
  start_time : Option Int
  end_time : Option Int
deriving DecidableEq

/-- UpdateItemPayload struct of main.rs lines 54-66: every field is
optional; there are no id or created_at fields. -/
structure UpdateItemPayload where
  item_type : Option String
  title : Option String
  content : Option String
  tags : Option (List String)
  code_location : Option CodeLocation
  completed : Option Bool
  due_date : Option Int
  start_time : Option Int
  end_time : Option Int
deriving DecidableEq

/-- Integer range of the Rust i64 type. -/
def intInI64 (n : Int) : Prop :=
  -9223372036854775808 ≤ n ∧ n ≤ 9223372036854775807

instance (n : Int) : Decidable (intInI64 n) := by
  unfold intInI64; infer_instance

/-- Validity of an optional i64 field. -/
def optIntValid : Option Int → Prop
  | none => True
  | some n => intInI64 n

instance (o : Option Int) : Decidable (optIntValid o) :=
  match o with
  | none => Decidable.isTrue True.intro
  | some n => inferInstanceAs (Decidable (intInI64 n))

/-- Validity of an optional code location: line_number fits in u32. -/
def optLocValid : Option CodeLocation → Prop
  | none => True
  | some cl => cl.line_number ≤ 4294967295

instance (o : Option CodeLocation) : Decidable (optLocValid o) :=
  match o with
  | none => Decidable.isTrue True.intro
  | some cl => inferInstanceAs (Decidable (cl.line_number ≤ 4294967295))

/-- A valid Item is one whose integer fields fit the machine integer
types declared in the Rust struct (i64 timestamps, u32 line number). -/
def ItemValid (item : Item) : Prop :=
  intInI64 item.created_at ∧ optLocValid item.code_location ∧
    optIntValid item.due_date ∧ optIntValid item.start_time ∧
    optIntValid item.end_time

instance (item : Item) : Decidable (ItemValid item) := by
  unfold ItemValid; infer_instance

/-- Serialization of an optional string field: serde writes null for
None. -/
def encodeOptStr : Option String → Json
  | none => Json.null
  | some s => Json.str s

/-- Serialization of an optional bool field. -/
def encodeOptBool : Option Bool → Json
  | none => Json.null
  | some b => Json.bool b

/-- Serialization of an optional i64 field. -/
def encodeOptInt : Option Int → Json
  | none => Json.null
  | some n => Json.num n

/-- Serialization of a CodeLocation (derived serde impl, field order as
declared). -/
def encodeLoc (cl : CodeLocation) : Json :=
  Json.obj [("file_path", Json.str cl.file_path),
            ("line_number", Json.num (cl.line_number : Int))]

/-- Serialization of an optional CodeLocation field. -/
def encodeOptLoc : Option CodeLocation → Json
  | none => Json.null
  | some cl => encodeLoc cl

/-- The field list of a serialized Item: one key per struct field in
declaration order, with item_type renamed to "type". -/
def encodeFields (item : Item) : List (String × Json) :=
  [("id", Json.str item.id),
   ("type", Json.str item.item_type),
   ("title", Json.str item.title),
   ("content", encodeOptStr item.content),
   ("tags", Json.arr (item.tags.map Json.str)),
   ("code_location", encodeOptLoc item.code_location),
   ("created_at", Json.num item.created_at),
   ("completed", encodeOptBool item.completed),
   ("due_date", encodeOptInt item.due_date),
   ("start_time", encodeOptInt item.start_time),
   ("end_time", encodeOptInt item.end_time)]

/-- Serialization of an Item, modelling serde_json::to_vec at the JSON
value level. -/
def encodeItem (item : Item) : Json :=
  Json.obj (encodeFields item)

/-- First binding of a key in a JSON object field list. -/
def lookupField (fields : List (String × Json)) (name : String) : Option Json :=
  match fields with
  | [] => none
  | (k, v) :: rest => if k = name then some v else lookupField rest name

/-- Decode a required string field. -/
def getStr (fields : List (String × Json)) (name : String) : Option String :=
  match lookupField fields name with
  | some (Json.str s) => some s
  | _ => none

/-- Decode an optional string field: missing key or null both decode to
None, mirroring the serde default for Option. -/
def getOptStr (fields : List (String × Json)) (name : String) : Option (Option String) :=
  match lookupField fields name with
  | none => some none
  | some Json.null => some none
  | some (Json.str s) => some (some s)
  | some _ => none

/-- Decode an optional bool field. -/
def getOptBool (fields : List (String × Json)) (name : String) : Option (Option Bool) :=
  match lookupField fields name with
  | none => some none
  | some Json.null => some none
  | some (Json.bool b) => some (some b)
  | some _ => none

/-- Decode a required i64 field, checking the machine range as serde
does. -/
def getInt (fields : List (String × Json)) (name : String) : Option Int :=
  match lookupField fields name with
  | some (Json.num n) => if intInI64 n then some n else none
  | _ => none

/-- Decode an optional i64 field. -/
def getOptInt (fields : List (String × Json)) (name : String) : Option (Option Int) :=
  match lookupField fields name with
  | none => some none
  | some Json.null => some none
  | some (Json.num n) => if intInI64 n then some (some n) else none
  | some _ => none

/-- Decode a list of JSON strings. -/
def decodeStrings : List Json → Option (List String)
  | [] => some []
  | Json.str s :: rest => (decodeStrings rest).map (fun l => s :: l)
  | _ => none

/-- Decode the required tags field (Vec of String in the source: a
missing key is a decode error). -/
def getTags (fields : List (String × Json)) (name : String) : Option (List String) :=
  match lookupField fields name with
  | some (Json.arr xs) => decodeStrings xs
  | _ => none

/-- Decode a CodeLocation object, checking the u32 range of
line_number. -/
def decodeLoc (j : Json) : Option CodeLocation :=
  match j with
  | Json.obj fields =>
    match getStr fields "file_path", lookupField fields "line_number" with
    | some fp, some (Json.num n) =>
      if 0 ≤ n ∧ n ≤ 4294967295 then some ⟨fp, n.toNat⟩ else none
    | _, _ => none
  | _ => none

/-- Decode an optional CodeLocation field. -/
def getOptLoc (fields : List (String × Json)) (name : String) : Option (Option CodeLocation) :=
  match lookupField fields name with
  | none => some none
  | some Json.null => some none
  | some j => (decodeLoc j).map some

/-- Deserialization of an Item from a JSON value, mirroring the derived
serde impl: required fields must be present with the right type,
Option fields accept missing or null as absence, and unknown keys are
ignored. -/
def decodeItem (j : Json) : Option Item :=
  match j with
  | Json.obj fields =>
    (getStr fields "id").bind fun id =>
    (getStr fields "type").bind fun ty =>
    (getStr fields "title").bind fun ti =>
    (getOptStr fields "content").bind fun co =>
    (getTags fields "tags").bind fun ta =>
    (getOptLoc fields "code_location").bind fun cl =>
    (getInt fields "created_at").bind fun ca =>
    (getOptBool fields "completed").bind fun cm =>
    (getOptInt fields "due_date").bind fun dd =>
    (getOptInt fields "start_time").bind fun st =>
    (getOptInt fields "end_time").bind fun et =>
    some ⟨id, ty, ti, co, ta, cl, ca, cm, dd, st, et⟩
  | _ => none

theorem decodeStrings_map_str (l : List String) :
    decodeStrings (l.map Json.str) = some l := by
  induction l with
  | nil => rfl
  | cons x xs ih => simp [decodeStrings, ih]

theorem getStr_enc_id (item : Item) :
    getStr (encodeFields item) "id" = some item.id := rfl

theorem getStr_enc_type (item : Item) :
    getStr (encodeFields item) "type" = some item.item_type := rfl

theorem getStr_enc_title (item : Item) :
    getStr (encodeFields item) "title" = some item.title := rfl

theorem getOptStr_enc_content (item : Item) :
    getOptStr (encodeFields item) "content" = some item.content := by
  obtain ⟨id, ty, ti, co, ta, cl, ca, cm, dd, st, et⟩ := item
  cases co <;> rfl

theorem getTags_enc (item : Item) :
    getTags (encodeFields item) "tags" = some item.tags := by
  have h : getTags (encodeFields item) "tags"
      = decodeStrings (item.tags.map Json.str) := rfl
  rw [h, decodeStrings_map_str]

theorem getOptLoc_enc (item : Item) (h : optLocValid item.code_location) :
    getOptLoc (encodeFields item) "code_location" = some item.code_location := by
  obtain ⟨id, ty, ti, co, ta, cl, ca, cm, dd, st, et⟩ := item
  cases cl with
  | none => rfl
  | some loc =>
    obtain ⟨fp, ln⟩ := loc
    simp only [optLocValid] at h
    have h1 : getOptLoc (encodeFields ⟨id, ty, ti, co, ta, some ⟨fp, ln⟩, ca, cm, dd, st, et⟩)
        "code_location"
        = (if 0 ≤ (ln : Int) ∧ (ln : Int) ≤ 4294967295
            then some (⟨fp, ((ln : Int)).toNat⟩ : CodeLocation) else none).map some := rfl
    rw [h1, if_pos]
    · simp
    · exact ⟨Int.natCast_nonneg ln, by exact_mod_cast h⟩

theorem getInt_enc_created (item : Item) (h : intInI64 item.created_at) :
    getInt (encodeFields item) "created_at" = some item.created_at := by
  have h1 : getInt (encodeFields item) "created_at"
      = if intInI64 item.created_at then some item.created_at else none := rfl
  rw [h1, if_pos h]

theorem getOptBool_enc_completed (item : Item) :
    getOptBool (encodeFields item) "completed" = some item.completed := by
  obtain ⟨id, ty, ti, co, ta, cl, ca, cm, dd, st, et⟩ := item
  cases cm <;> rfl

theorem getOptInt_enc_due (item : Item) (h : optIntValid item.due_date) :
    getOptInt (encodeFields item) "due_date" = some item.due_date := by
  obtain ⟨id, ty, ti, co, ta, cl, ca, cm, dd, st, et⟩ := item
  cases dd with
  | none => rfl
  | some n =>
    simp only [optIntValid] at h
    have h1 : getOptInt (encodeFields ⟨id, ty, ti, co, ta, cl, ca, cm, some n, st, et⟩)
        "due_date" = if intInI64 n then some (some n) else none := rfl
    rw [h1, if_pos h]

theorem getOptInt_enc_start (item : Item) (h : optIntValid item.start_time) :
    getOptInt (encodeFields item) "start_time" = some item.start_time := by
  obtain ⟨id, ty, ti, co, ta, cl, ca, cm, dd, st, et⟩ := item
  cases st with
  | none => rfl
  | some n =>
    simp only [optIntValid] at h
    have h1 : getOptInt (encodeFields ⟨id, ty, ti, co, ta, cl, ca, cm, dd, some n, et⟩)
        "start_time" = if intInI64 n then some (some n) else none := rfl
    rw [h1, if_pos h]

theorem getOptInt_enc_end (item : Item) (h : optIntValid item.end_time) :
    getOptInt (encodeFields item) "end_time" = some item.end_time := by
  obtain ⟨id, ty, ti, co, ta, cl, ca, cm, dd, st, et⟩ := item
  cases et with
  | none => rfl
  | some n =>
    simp only [optIntValid] at h
    have h1 : getOptInt (encodeFields ⟨id, ty, ti, co, ta, cl, ca, cm, dd, st, some n⟩)
        "end_time" = if intInI64 n then some (some n) else none := rfl
    rw [h1, if_pos h]

theorem decode_encode (item : Item) (h : ItemValid item) :
    decodeItem (encodeItem item) = some item := by
  obtain ⟨h1, h2, h3, h4, h5⟩ := h
  show decodeItem (Json.obj (encodeFields item)) = some item
  simp only [decodeItem, getStr_enc_id, getStr_enc_type, getStr_enc_title,
    getOptStr_enc_content, getTags_enc item, getOptLoc_enc item h2,
    getInt_enc_created item h1, getOptBool_enc_completed,
    getOptInt_enc_due item h3, getOptInt_enc_start item h4,
    getOptInt_enc_end item h5, Option.some_bind]

/-- The item store: a partial map from id to the stored JSON value,
modelling the sled database restricted to the keys the handlers use. -/
def Store : Type := String → Option Json

/-- Insertion into the store (db.insert). -/
def storeInsert (s : Store) (key : String) (v : Json) : Store :=
  fun k => if k = key then some v else s k

/-- Removal from the store (db.remove drops the key and reports whether
it was present). -/
def storeRemove (s : Store) (key : String) : Store :=
  fun k => if k = key then none else s k

/-- Outcome of the get_item handler, main.rs lines 154-163. -/
inductive GetOutcome where
  | ok (item : Item) : GetOutcome
  | deserializationFailed : GetOutcome
  | notFound : GetOutcome
deriving DecidableEq

/-- The get_item handler, main.rs lines 154-163: fetch, decode, and map
a missing key to NotFound and a decode failure to an error response. -/
def get_item (s : Store) (id : String) : GetOutcome :=
  match s id with
  | some value =>
    match decodeItem value with
    | some item => GetOutcome.ok item
    | none => GetOutcome.deserializationFailed
  | none => GetOutcome.notFound

/-- Outcome of the delete_item handler, main.rs lines 253-260. -/
inductive DeleteOutcome where
  | noContent : DeleteOutcome
  | notFound : DeleteOutcome
deriving DecidableEq

/-- The delete_item handler, main.rs lines 253-260: db.remove returns
the previous value; Some maps to 204 NoContent and None to 404
NotFound. -/
def delete_item (s : Store) (id : String) : DeleteOutcome × Store :=
  match s id with
  | some _ => (DeleteOutcome.noContent, storeRemove s id)
  | none => (DeleteOutcome.notFound, s)

/-- The field merge of update_item, main.rs lines 209-235: each payload
field that is present overwrites the corresponding item field; id and
created_at are not touched by any branch. -/
def applyPatch (item : Item) (p : UpdateItemPayload) : Item :=
  let item := match p.item_type with
    | some t => { item with item_type := t } | none => item
  let item := match p.title with
    | some t => { item with title := t } | none => item
  let item := match p.content with
    | some c => { item with content := some c } | none => item
  let item := match p.tags with
    | some t => { item with tags := t } | none => item
  let item := match p.code_location with
    | some l => { item with code_location := some l } | none => item
  let item := match p.completed with
    | some b => { item with completed := some b } | none => item
  let item := match p.due_date with
    | some d => { item with due_date := some d } | none => item
  let item := match p.start_time with
    | some t => { item with start_time := some t } | none => item
  let item := match p.end_time with
    | some t => { item with end_time := some t } | none => item
  item

/-- Outcome of the update_item handler.  The panicked constructor
models the unwrap on line 207 aborting the request when the stored
value fails to decode; the request dies before any write, so the store
is returned unchanged in that case. -/
inductive UpdateOutcome where
  | ok (item : Item) : UpdateOutcome
  | notFound : UpdateOutcome
  | panicked : UpdateOutcome
deriving DecidableEq

/-- The update_item handler, main.rs lines 198-251: fetch the record,
decode it with unwrap (panicking on failure), merge the payload, and
write the re-encoded result back under the same key.  Serialization of
an Item cannot fail, so the to_vec error branch is unreachable. -/
def update_item (s : Store) (id : String) (p : UpdateItemPayload) :
    UpdateOutcome × Store :=
  match s id with
  | some value =>
    match decodeItem value with
    | some item =>
      let merged := applyPatch item p
      (UpdateOutcome.ok merged, storeInsert s id (encodeItem merged))
    | none => (UpdateOutcome.panicked, s)
  | none => (UpdateOutcome.notFound, s)

/-- Decode an optional list-of-strings field (the Option-of-Vec tags
field of the update payload). -/
def getOptTags (fields : List (String × Json)) (name : String) :
    Option (Option (List String)) :=
  match lookupField fields name with
  | none => some none
  | some Json.null => some none
  | some (Json.arr xs) => (decodeStrings xs).map some
  | some _ => none

/-- Deserialization of an UpdateItemPayload, mirroring the derived
serde impl: every field is optional (missing or null decodes to None)
and unknown keys, in particular id and created_at, are ignored. -/
def decodeUpdateItemPayload (j : Json) : Option UpdateItemPayload :=
  match j with
  | Json.obj fields =>
    (getOptStr fields "type").bind fun ty =>
    (getOptStr fields "title").bind fun ti =>
    (getOptStr fields "content").bind fun co =>
    (getOptTags fields "tags").bind fun ta =>
    (getOptLoc fields "code_location").bind fun cl =>
    (getOptBool fields "completed").bind fun cm =>
    (getOptInt fields "due_date").bind fun dd =>
    (getOptInt fields "start_time").bind fun st =>
    (getOptInt fields "end_time").bind fun et =>
    some ⟨ty, ti, co, ta, cl, cm, dd, st, et⟩
  | _ => none

/-- Pointwise characterization of the merge: present payload fields
overwrite, absent ones leave the prior value, and id and created_at are
copied through unconditionally. -/
theorem applyPatch_eq (item : Item) (p : UpdateItemPayload) :
    applyPatch item p =
      ⟨item.id,
       p.item_type.getD item.item_type,
       p.title.getD item.title,
       (p.content.map some).getD item.content,
       p.tags.getD item.tags,
       (p.code_location.map some).getD item.code_location,
       item.created_at,
       (p.completed.map some).getD item.completed,
       (p.due_date.map some).getD item.due_date,
       (p.start_time.map some).getD item.start_time,
       (p.end_time.map some).getD item.end_time⟩ := by
  obtain ⟨ty, ti, co, ta, cl, cm, dd, st, et⟩ := p
  cases ty <;> cases ti <;> cases co <;> cases ta <;> cases cl <;>
    cases cm <;> cases dd <;> cases st <;> cases et <;> rfl

/-- A sample valid stored item with a mix of present and absent
optional fields, used as a concrete test vehicle. -/
def sampleStoredItem : Item :=
  ⟨"abc", "note", "hello", some "body", ["x", "y"],
   some ⟨"main.rs", 42⟩, 1700000000000, some true, some 1, none, none⟩

/-- A store holding the sample item under its id. -/
def sampleStore : Store :=
  fun k => if k = "abc" then some (encodeItem sampleStoredItem) else none

/-- A patch payload as received on the wire, carrying id and
created_at keys alongside a title. -/
def samplePatchJson : Json :=
  Json.obj [("id", Json.str "evil"), ("created_at", Json.num 0),
            ("title", Json.str "new title")]

/-- The payload samplePatchJson decodes to: only title present, the id
and created_at keys ignored. -/
def samplePatch : UpdateItemPayload :=
  ⟨none, some "new title", none, none, none, none, none, none, none⟩

/-- C5: for every valid Item, decoding the encoding yields the original
Item; in particular each optional field is absent after the round trip
exactly when it was absent before, since the decoded record is equal to
the original. -/
theorem item_roundtrip (item : Item) (h : ItemValid item) :
    decodeItem (encodeItem item) = some item :=
  decode_encode item h

theorem item_roundtrip_witness :
    ItemValid sampleStoredItem ∧
    decodeItem (encodeItem sampleStoredItem) = some sampleStoredItem :=
  ⟨by decide, item_roundtrip sampleStoredItem (by decide)⟩

/-- C3: for every stored record that decodes and every decodable update
payload, including one whose wire form carries id or created_at keys,
the updated record keeps the prior id and created_at. -/
theorem update_preserves_id_createdAt (s : Store) (key : String) (v : Json)
    (item : Item) (j : Json) (p : UpdateItemPayload)
    (h1 : s key = some v) (h2 : decodeItem v = some item)
    (h3 : decodeUpdateItemPayload j = some p) :
    (update_item s key p).1 = UpdateOutcome.ok (applyPatch item p) ∧
    (applyPatch item p).id = item.id ∧
    (applyPatch item p).created_at = item.created_at := by
  refine ⟨?_, ?_, ?_⟩
  · simp [update_item, h1, h2]
  · rw [applyPatch_eq]
  · rw [applyPatch_eq]

theorem update_preserves_id_createdAt_witness :
    sampleStore "abc" = some (encodeItem sampleStoredItem) ∧
    decodeItem (encodeItem sampleStoredItem) = some sampleStoredItem ∧
    decodeUpdateItemPayload samplePatchJson = some samplePatch ∧
    ((update_item sampleStore "abc" samplePatch).1
        = UpdateOutcome.ok (applyPatch sampleStoredItem samplePatch) ∧
      (applyPatch sampleStoredItem samplePatch).id = sampleStoredItem.id ∧
      (applyPatch sampleStoredItem samplePatch).created_at
        = sampleStoredItem.created_at) :=
  ⟨rfl, by decide, by decide,
    update_preserves_id_createdAt sampleStore "abc" (encodeItem sampleStoredItem)
      sampleStoredItem samplePatchJson samplePatch rfl (by decide) (by decide)⟩

/-- C4: the update merge overwrites exactly the payload fields that are
present and leaves absent fields at their prior values; in particular a
patch carrying only a title changes the title and nothing else. -/
theorem update_merge_exact (item : Item) (p : UpdateItemPayload) (t : String) :
    applyPatch item p =
      ⟨item.id,
       p.item_type.getD item.item_type,
       p.title.getD item.title,
       (p.content.map some).getD item.content,
       p.tags.getD item.tags,
       (p.code_location.map some).getD item.code_location,
       item.created_at,
       (p.completed.map some).getD item.completed,
       (p.due_date.map some).getD item.due_date,
       (p.start_time.map some).getD item.start_time,
       (p.end_time.map some).getD item.end_time⟩ ∧
    applyPatch item ⟨none, some t, none, none, none, none, none, none, none⟩
      = { item with title := t } := by
  refine ⟨applyPatch_eq item p, ?_⟩
  rw [applyPatch_eq]
  rfl

/-- C10: the update merge is monotone on the optional fields: an
optional field present before the update is still present after it,
because a present payload field writes a Some and an absent one leaves
the prior value. -/
theorem update_optional_monotone (item : Item) (p : UpdateItemPayload) :
    item.content.isSome ≤ (applyPatch item p).content.isSome ∧
    item.code_location.isSome ≤ (applyPatch item p).code_location.isSome ∧
    item.completed.isSome ≤ (applyPatch item p).completed.isSome ∧
    item.due_date.isSome ≤ (applyPatch item p).due_date.isSome ∧
    item.start_time.isSome ≤ (applyPatch item p).start_time.isSome ∧
    item.end_time.isSome ≤ (applyPatch item p).end_time.isSome := by
  rw [applyPatch_eq]
  obtain ⟨ty, ti, co, ta, cl, cm, dd, st, et⟩ := p
  cases co <;> cases cl <;> cases cm <;> cases dd <;> cases st <;> cases et <;>
    simp [Bool.le_true, le_refl]

/-- C8: after deleting an id the subsequent fetch yields NotFound, a
delete of an id absent from the store yields NotFound rather than a
silent success, and a second delete immediately after the first always
yields NotFound. -/
theorem delete_then_get_notFound (s : Store) (id : String) :
    get_item (delete_item s id).2 id = GetOutcome.notFound ∧
    ((delete_item s id).1 = DeleteOutcome.notFound ↔ s id = none) ∧
    (delete_item (delete_item s id).2 id).1 = DeleteOutcome.notFound := by
  cases h : s id with
  | some v => simp [delete_item, h, storeRemove, get_item]
  | none => simp [delete_item, h, get_item]

/-- A stored record that is not a decodable Item: an object missing
every required field. -/
def corruptRecord : Json := Json.obj []

/-- A store whose record under the id bad is corrupt. -/
def corruptStore : Store :=
  fun k => if k = "bad" then some corruptRecord else none

/-- The all-absent update payload. -/
def noopPatch : UpdateItemPayload :=
  ⟨none, none, none, none, none, none, none, none, none⟩

/-- C2 evidence: when the stored record exists but fails to decode, the
update handler hits the unwrap on main.rs line 207 and the request
panics instead of returning NotFound; the store itself is left
unchanged because the panic happens before any write. -/
theorem update_panics_on_corrupt :
    corruptStore "bad" = some corruptRecord ∧
    decodeItem corruptRecord = none ∧
    update_item corruptStore "bad" noopPatch
      = (UpdateOutcome.panicked, corruptStore) ∧
    UpdateOutcome.panicked ≠ UpdateOutcome.notFound :=
  ⟨rfl, rfl, rfl, by decide⟩

/-- ASCII lowercasing of one character, as in the Rust u8 method the
eq_ignore_ascii_case comparison lowercases bytes with. -/
def asciiLowerChar (c : Char) : Char :=
  if 'A' ≤ c ∧ c ≤ 'Z' then Char.ofNat (c.toNat + 32) else c

/-- The str::eq_ignore_ascii_case comparison of the Rust source:
equality after ASCII lowercasing both sides. -/
def eq_ignore_ascii_case (a b : String) : Bool :=
  a.data.map asciiLowerChar == b.data.map asciiLowerChar

/-- The str::to_lowercase call of get_filtered_items.  Rust lowercases
per the Unicode tables; on the ASCII strings this development evaluates
it on, that coincides with per-character ASCII lowercasing. -/
def to_lowercase (s : String) : String :=
  String.mk (s.data.map asciiLowerChar)

/-- Characters with the Unicode White_Space property, the set
char::is_whitespace of the Rust source tests. -/
def rustIsWhitespace (c : Char) : Bool :=
  (9 ≤ c.toNat && c.toNat ≤ 13) || c.toNat = 32 || c.toNat = 133 ||
    c.toNat = 160 || c.toNat = 5760 ||
    (8192 ≤ c.toNat && c.toNat ≤ 8202) || c.toNat = 8232 ||
    c.toNat = 8233 || c.toNat = 8239 || c.toNat = 8287 || c.toNat = 12288

/-- The str::trim call of the source: strip whitespace from both
ends. -/
def rustTrim (s : String) : String :=
  String.mk
    (((s.data.dropWhile rustIsWhitespace).reverse.dropWhile
        rustIsWhitespace).reverse)

/-- Helper for splitComma: accumulate the current piece in reverse. -/
def splitCommaAux : List Char → List Char → List String
  | [], acc => [String.mk acc.reverse]
  | c :: rest, acc =>
    if c = ',' then String.mk acc.reverse :: splitCommaAux rest []
    else splitCommaAux rest (c :: acc)

/-- The str::split with a comma of get_filtered_items: every comma is a
separator and empty pieces are kept, so the result is never empty. -/
def splitComma (s : String) : List String :=
  splitCommaAux s.data []

/-- The get_filtered_items handler, main.rs lines 320-354: the type
query parameter is lowercased up front, the tags parameter is split on
commas and each piece trimmed; a stored record is reported when it
decodes and the lowercased type filter equals its type exactly and
every requested tag is contained in its tags; a missing filter matches
everything, as does an undecodable record nothing. -/
def get_filtered_items (records : List Json)
    (typeParam tagsParam : Option String) : List Item :=
  let filter_type := typeParam.map to_lowercase
  let filter_tags := tagsParam.map (fun s => (splitComma s).map rustTrim)
  records.filterMap (fun val =>
    match decodeItem val with
    | none => none
    | some item_data =>
      let type_match := match filter_type with
        | none => true
        | some t => t == item_data.item_type
      let tags_match := match filter_tags with
        | none => true
        | some tags => tags.all (fun tag => item_data.tags.contains tag)
      if type_match && tags_match then some item_data else none)

/-- An item whose stored type carries an uppercase letter. -/
def itemTaskUpper : Item :=
  ⟨"id1", "Task", "t", none, [], none, 0, none, none, none, none⟩

/-- C1 counterexample: the stored type Task and the filter type task
are equal ignoring case, yet the filter reports nothing, because only
the filter string is lowercased and the comparison against the stored
type is exact. -/
theorem filterType_case_counterexample :
    get_filtered_items [encodeItem itemTaskUpper] (some "task") none = [] ∧
    eq_ignore_ascii_case itemTaskUpper.item_type "task" = true := by
  decide

/-- C1 as amended: the type predicate matches exactly when the stored
type equals the lowercased filter string; the filter string side is
case-insensitive but the stored side is compared exactly. -/
theorem filterType_lowercase_exact (item : Item) (h : ItemValid item)
    (t : String) :
    get_filtered_items [encodeItem item] (some t) none
      = if to_lowercase t = item.item_type then [item] else [] := by
  by_cases hc : to_lowercase t = item.item_type <;>
    simp [get_filtered_items, decode_encode item h, hc]

/-- An item stored with the all-lowercase type task. -/
def itemTaskLower : Item :=
  ⟨"id2", "task", "t", none, [], none, 0, none, none, none, none⟩

theorem filterType_lowercase_exact_witness :
    ItemValid itemTaskLower ∧
    get_filtered_items [encodeItem itemTaskLower] (some "TASK") none
      = if to_lowercase "TASK" = itemTaskLower.item_type
        then [itemTaskLower] else [] :=
  ⟨by decide, filterType_lowercase_exact itemTaskLower (by decide) "TASK"⟩

/-- Item A of the filter-conjunction scenario. -/
def itemA : Item :=
  ⟨"a", "task", "A", none, ["urgent", "home"], none, 0, none, none, none, none⟩

/-- Item B of the filter-conjunction scenario. -/
def itemB : Item :=
  ⟨"b", "task", "B", none, ["home"], none, 0, none, none, none, none⟩

/-- Item C of the filter-conjunction scenario. -/
def itemC : Item :=
  ⟨"c", "note", "C", none, ["urgent"], none, 0, none, none, none, none⟩

/-- Item D: type Task with an uppercase letter, tagged urgent. -/
def itemD : Item :=
  ⟨"d", "Task", "D", none, ["urgent"], none, 0, none, none, none, none⟩

/-- C7 counterexample: item D equals task ignoring case and carries the
urgent tag, so the claim says the filter returns it, but the filter
reports only A because the stored type is compared exactly against the
lowercased filter string. -/
theorem filter_conjunction_counterexample :
    get_filtered_items
        [encodeItem itemA, encodeItem itemB, encodeItem itemC,
         encodeItem itemD] (some "task") (some "urgent") = [itemA] ∧
    eq_ignore_ascii_case itemD.item_type "task" = true ∧
    itemD.tags.contains "urgent" = true := by
  decide

/-- C7 as amended: the filter with type task and tag urgent returns
exactly the items whose stored type equals the lowercased filter string
exactly and whose tags contain every requested tag, both predicates
conjunctive; on the scenario items A, B, C only A is reported. -/
theorem filter_conjunction_exact (item : Item) (h : ItemValid item) :
    (get_filtered_items [encodeItem item] (some "task") (some "urgent")
      = if "task" = item.item_type ∧ item.tags.contains "urgent" = true
        then [item] else []) ∧
    get_filtered_items [encodeItem itemA, encodeItem itemB, encodeItem itemC]
      (some "task") (some "urgent") = [itemA] := by
  constructor
  · have hd := decode_encode item h
    have htl : to_lowercase "task" = "task" := by decide
    have hsp : (splitComma "urgent").map rustTrim = ["urgent"] := by decide
    simp only [get_filtered_items, Option.map_some', List.filterMap_cons,
      List.filterMap_nil, hd, htl, hsp]
    by_cases h1 : "task" = item.item_type <;>
      by_cases h2 : "urgent" ∈ item.tags <;>
      simp [h1, h2]
  · decide

theorem filter_conjunction_exact_witness :
    ItemValid itemA ∧
    (get_filtered_items [encodeItem itemA] (some "task") (some "urgent")
      = if "task" = itemA.item_type ∧ itemA.tags.contains "urgent" = true
        then [itemA] else []) ∧
    get_filtered_items [encodeItem itemA, encodeItem itemB, encodeItem itemC]
      (some "task") (some "urgent") = [itemA] :=
  ⟨by decide, (filter_conjunction_exact itemA (by decide)).1,
    (filter_conjunction_exact itemA (by decide)).2⟩

/-- Helper for rustLines: cut the character stream after every newline,
keeping the newline in the piece, like split_inclusive in the Rust
std implementation of str::lines. -/
def linesAux : List Char → List Char → List (List Char)
  | [], acc => if acc.isEmpty then [] else [acc.reverse]
  | c :: rest, acc =>
    if c = '\n' then (acc.reverse ++ ['\n']) :: linesAux rest []
    else linesAux rest (c :: acc)

/-- Strip one trailing line ending, either a newline or a carriage
return followed by a newline, from a piece. -/
def stripNewlineSuffix (l : List Char) : List Char :=
  match l.reverse with
  | '\n' :: '\r' :: rest => rest.reverse
  | '\n' :: rest => rest.reverse
  | _ => l

/-- The str::lines iterator of the Rust source: pieces end at newlines,
the line ending is not part of the line, a trailing carriage return
before the newline is stripped, and a final line ending produces no
extra empty line. -/
def rustLines (s : String) : List String :=
  (linesAux s.data []).map (fun l => String.mk (stripNewlineSuffix l))

/-- Helper for splitWhitespace: accumulate the current token in
reverse, emitting it at each whitespace run. -/
def splitWhitespaceAux : List Char → List Char → List String
  | [], acc => if acc.isEmpty then [] else [String.mk acc.reverse]
  | c :: rest, acc =>
    if rustIsWhitespace c then
      if acc.isEmpty then splitWhitespaceAux rest []
      else String.mk acc.reverse :: splitWhitespaceAux rest []
    else splitWhitespaceAux rest (c :: acc)

/-- The str::split_whitespace iterator of the Rust source: tokens are
the maximal runs of non-whitespace characters, with no empty tokens. -/
def splitWhitespace (s : String) : List String :=
  splitWhitespaceAux s.data []

/-- The slice join method of the Rust source: pieces interleaved with
the separator. -/
def joinWith (sep : String) : List String → String
  | [] => ""
  | [x] => x
  | x :: xs => x ++ sep ++ joinWith sep xs

/-- The starts_with hash test of capture_item: the word begins with the
hash character. -/
def startsWithHash (w : String) : Bool :=
  match w.data with
  | [] => false
  | c :: _ => c = '#'

/-- The byte-range slice word[1..] of capture_item: the hash character
is one byte, so this drops exactly the first character. -/
def dropFirstChar (w : String) : String :=
  String.mk w.data.tail

/-- One step of the capture token loop, main.rs lines 272-287: a word
starting with hash becomes a tag (hash stripped) and, when the tag is
todo, note or event ignoring ASCII case, rewrites the item type; any
other word is appended to the title parts. -/
def capStep (st : String × List String × List String) (word : String) :
    String × List String × List String :=
  if startsWithHash word then
    let tag := dropFirstChar word
    let ty :=
      if eq_ignore_ascii_case tag "todo" then "task"
      else if eq_ignore_ascii_case tag "note" then "note"
      else if eq_ignore_ascii_case tag "event" then "event"
      else st.1
    (ty, st.2.1 ++ [tag], st.2.2)
  else (st.1, st.2.1, st.2.2 ++ [word])

/-- The type contribution of one header token: Some of the derived item
type when the token is a special tag, None otherwise. -/
def specialTagType (w : String) : Option String :=
  if startsWithHash w then
    let tag := dropFirstChar w
    if eq_ignore_ascii_case tag "todo" then some "task"
    else if eq_ignore_ascii_case tag "note" then some "note"
    else if eq_ignore_ascii_case tag "event" then some "event"
    else none
  else none

/-- The capture_item handler, main.rs lines 262-318, with the generated
id and created_at taken as parameters since the source draws them from
a random uuid and the clock: split the text into lines, parse the first
line by the token loop, join the remaining lines as content, and trim
the joined title. -/
def capture_item (text : String) (id : String) (created_at : Int) : Item :=
  let ls := rustLines text
  let first_line := ls.headD ""
  let content := some (joinWith "\n" ls.tail)
  let st := (splitWhitespace first_line).foldl capStep ("note", [], [])
  { id := id, item_type := st.1, title := rustTrim (joinWith " " st.2.2),
    content := content, tags := st.2.1, code_location := none,
    created_at := created_at, completed := none, due_date := none,
    start_time := none, end_time := none }

theorem getLast?_cons_getD {α : Type} (a d : α) (l : List α) :
    ((a :: l).getLast?).getD d = (l.getLast?).getD a := by
  cases l with
  | nil => rfl
  | cons b l' =>
    rw [List.getLast?_cons_cons]
    cases hl : (b :: l').getLast? with
    | none => exact absurd (List.getLast?_eq_none_iff.mp hl) (by simp)
    | some x => rfl

theorem capStep_fold_tags (toks : List String) :
    ∀ (ty : String) (tags parts : List String),
      (toks.foldl capStep (ty, tags, parts)).2.1 =
        tags ++ (toks.filter (fun w => startsWithHash w)).map dropFirstChar := by
  induction toks with
  | nil => intro ty tags parts; simp
  | cons w rest ih =>
    intro ty tags parts
    rw [List.foldl_cons]
    by_cases hw : startsWithHash w = true
    · simp only [capStep, hw, if_true]
      rw [ih]
      simp [List.filter_cons, hw]
    · simp only [capStep, hw, if_false]
      rw [ih]
      simp [List.filter_cons, hw]

theorem capStep_fold_title (toks : List String) :
    ∀ (ty : String) (tags parts : List String),
      (toks.foldl capStep (ty, tags, parts)).2.2 =
        parts ++ toks.filter (fun w => !(startsWithHash w)) := by
  induction toks with
  | nil => intro ty tags parts; simp
  | cons w rest ih =>
    intro ty tags parts
    rw [List.foldl_cons]
    by_cases hw : startsWithHash w = true
    · simp only [capStep, hw, if_true]
      rw [ih]
      simp [List.filter_cons, hw]
    · simp only [capStep, hw, if_false]
      rw [ih]
      simp [List.filter_cons, hw]

theorem capStep_fold_type (toks : List String) :
    ∀ (ty : String) (tags parts : List String),
      (toks.foldl capStep (ty, tags, parts)).1 =
        ((toks.filterMap specialTagType).getLast?).getD ty := by
  induction toks with
  | nil => intro ty tags parts; simp
  | cons w rest ih =>
    intro ty tags parts
    rw [List.foldl_cons]
    by_cases hw : startsWithHash w = true
    · by_cases h1 : eq_ignore_ascii_case (dropFirstChar w) "todo" = true
      · have hst : specialTagType w = some "task" := by
          simp [specialTagType, hw, h1]
        have hcap : capStep (ty, tags, parts) w
            = ("task", tags ++ [dropFirstChar w], parts) := by
          simp [capStep, hw, h1]
        rw [hcap, ih, List.filterMap_cons_some hst, getLast?_cons_getD]
      · by_cases h2 : eq_ignore_ascii_case (dropFirstChar w) "note" = true
        · have hst : specialTagType w = some "note" := by
            simp [specialTagType, hw, h1, h2]
          have hcap : capStep (ty, tags, parts) w
              = ("note", tags ++ [dropFirstChar w], parts) := by
            simp [capStep, hw, h1, h2]
          rw [hcap, ih, List.filterMap_cons_some hst, getLast?_cons_getD]
        · by_cases hev : eq_ignore_ascii_case (dropFirstChar w) "event" = true
          · have hst : specialTagType w = some "event" := by
              simp [specialTagType, hw, h1, h2, hev]
            have hcap : capStep (ty, tags, parts) w
                = ("event", tags ++ [dropFirstChar w], parts) := by
              simp [capStep, hw, h1, h2, hev]
            rw [hcap, ih, List.filterMap_cons_some hst, getLast?_cons_getD]
          · have hst : specialTagType w = none := by
              simp [specialTagType, hw, h1, h2, hev]
            have hcap : capStep (ty, tags, parts) w
                = (ty, tags ++ [dropFirstChar w], parts) := by
              simp [capStep, hw, h1, h2, hev]
            rw [hcap, ih, List.filterMap_cons_none hst]
    · have hst : specialTagType w = none := by
        simp [specialTagType, hw]
      have hcap : capStep (ty, tags, parts) w = (ty, tags, parts ++ [w]) := by
        simp [capStep, hw]
      rw [hcap, ih, List.filterMap_cons_none hst]

theorem splitWhitespaceAux_inv (cs : List Char) :
    ∀ (acc : List Char), (∀ c ∈ acc, rustIsWhitespace c = false) →
      ∀ t ∈ splitWhitespaceAux cs acc,
        t.data ≠ [] ∧ ∀ c ∈ t.data, rustIsWhitespace c = false := by
  induction cs with
  | nil =>
    intro acc hacc t ht
    by_cases hemp : acc.isEmpty
    · simp [splitWhitespaceAux, hemp] at ht
    · simp [splitWhitespaceAux, hemp] at ht
      subst ht
      have hne : acc ≠ [] := fun hh => hemp (by simp [hh])
      refine ⟨by simpa using hne, ?_⟩
      intro c hc
      exact hacc c (by simpa using hc)
  | cons c rest ih =>
    intro acc hacc t ht
    by_cases hw : rustIsWhitespace c = true
    · by_cases hemp : acc.isEmpty
      · simp [splitWhitespaceAux, hw, hemp] at ht
        exact ih [] (by simp) t ht
      · simp [splitWhitespaceAux, hw, hemp, List.mem_cons] at ht
        rcases ht with h | h
        · subst h
          have hne : acc ≠ [] := fun hh => hemp (by simp [hh])
          refine ⟨by simpa using hne, ?_⟩
          intro d hd
          exact hacc d (by simpa using hd)
        · exact ih [] (by simp) t h
    · simp [splitWhitespaceAux, hw] at ht
      refine ih (c :: acc) ?_ t ht
      intro d hd
      rcases List.mem_cons.mp hd with h | h
      · subst h
        simpa using hw
      · exact hacc d h

theorem splitWhitespace_inv (s : String) :
    ∀ t ∈ splitWhitespace s,
      t.data ≠ [] ∧ ∀ c ∈ t.data, rustIsWhitespace c = false :=
  splitWhitespaceAux_inv s.data [] (by simp)

theorem joinWith_head (t : String) (rest : List String) (h : t.data ≠ []) :
    (joinWith " " (t :: rest)).data.head? = t.data.head? := by
  cases rest with
  | nil => rfl
  | cons r rs =>
    show (t ++ " " ++ joinWith " " (r :: rs)).data.head? = t.data.head?
    rw [String.data_append, String.data_append, List.append_assoc]
    cases ht : t.data with
    | nil => exact absurd ht h
    | cons c cs => simp

theorem joinWith_getLast (rest : List String) :
    ∀ (t : String), t.data ≠ [] → (∀ x ∈ rest, x.data ≠ []) →
      ∃ u, (u = t ∨ u ∈ rest) ∧
        (joinWith " " (t :: rest)).data.getLast? = u.data.getLast? := by
  induction rest with
  | nil =>
    intro t ht _
    exact ⟨t, Or.inl rfl, rfl⟩
  | cons r rs ih =>
    intro t ht hrest
    obtain ⟨u, hu, heq⟩ := ih r (hrest r (by simp))
      (fun x hx => hrest x (by simp [hx]))
    refine ⟨u, ?_, ?_⟩
    · rcases hu with h | h
      · exact Or.inr (by simp [h])
      · exact Or.inr (by simp [h])
    · show (t ++ " " ++ joinWith " " (r :: rs)).data.getLast? = u.data.getLast?
      rw [String.data_append, String.data_append, List.append_assoc]
      have hne : (joinWith " " (r :: rs)).data ≠ [] := by
        intro hnil
        have hh := joinWith_head r rs (hrest r (by simp))
        rw [hnil] at hh
        exact (hrest r (by simp)) (List.head?_eq_none_iff.mp hh.symm)
      rw [List.getLast?_append_of_ne_nil _ (by simp [hne]),
          List.getLast?_append_of_ne_nil _ hne]
      exact heq

theorem dropWhile_ws_eq_self (l : List Char)
    (h : ∀ c, l.head? = some c → rustIsWhitespace c = false) :
    l.dropWhile rustIsWhitespace = l := by
  cases l with
  | nil => rfl
  | cons c cs => simp [List.dropWhile_cons, h c rfl]

theorem rustTrim_eq_self (s : String)
    (h1 : ∀ c, s.data.head? = some c → rustIsWhitespace c = false)
    (h2 : ∀ c, s.data.getLast? = some c → rustIsWhitespace c = false) :
    rustTrim s = s := by
  unfold rustTrim
  rw [dropWhile_ws_eq_self s.data h1,
      dropWhile_ws_eq_self s.data.reverse
        (fun c hc => h2 c (by rwa [List.head?_reverse] at hc)),
      List.reverse_reverse]

theorem rustTrim_joinWith (toks : List String)
    (h : ∀ t ∈ toks, t.data ≠ [] ∧ ∀ c ∈ t.data, rustIsWhitespace c = false) :
    rustTrim (joinWith " " toks) = joinWith " " toks := by
  cases toks with
  | nil => rfl
  | cons t rest =>
    apply rustTrim_eq_self
    · intro c hc
      rw [joinWith_head t rest (h t (by simp)).1] at hc
      have hmem : c ∈ t.data := by
        cases hd : t.data with
        | nil => rw [hd] at hc; cases hc
        | cons a as =>
          rw [hd] at hc
          simp only [List.head?_cons, Option.some.injEq] at hc
          simp [hd, hc]
      exact (h t (by simp)).2 c hmem
    · intro c hc
      obtain ⟨u, hu, heq⟩ := joinWith_getLast rest t (h t (by simp)).1
        (fun x hx => (h x (by simp [hx])).1)
      rw [heq] at hc
      obtain ⟨hne2, heq2⟩ := List.mem_getLast?_eq_getLast (l := u.data) hc
      have hmem : c ∈ u.data := heq2 ▸ List.getLast_mem hne2
      rcases hu with h' | h'
      · exact (h t (by simp)).2 c (by rw [h'] at hmem; exact hmem)
      · exact (h u (by simp [h'])).2 c hmem

theorem capture_title_eq (text id : String) (ts : Int) :
    (capture_item text id ts).title
      = joinWith " " ((splitWhitespace ((rustLines text).headD "")).filter
          (fun w => !(startsWithHash w))) := by
  show rustTrim (joinWith " "
      (((splitWhitespace ((rustLines text).headD "")).foldl capStep
        ("note", [], [])).2.2)) = _
  rw [capStep_fold_title]
  simp only [List.nil_append]
  apply rustTrim_joinWith
  intro t ht
  exact splitWhitespace_inv _ t (List.mem_of_mem_filter ht)

theorem capture_tags_eq (text id : String) (ts : Int) :
    (capture_item text id ts).tags
      = ((splitWhitespace ((rustLines text).headD "")).filter
          (fun w => startsWithHash w)).map dropFirstChar := by
  show ((splitWhitespace ((rustLines text).headD "")).foldl capStep
      ("note", [], [])).2.1 = _
  rw [capStep_fold_tags]
  simp

theorem capture_type_eq (text id : String) (ts : Int) :
    (capture_item text id ts).item_type
      = (((splitWhitespace ((rustLines text).headD "")).filterMap
          specialTagType).getLast?).getD "note" := by
  show ((splitWhitespace ((rustLines text).headD "")).foldl capStep
      ("note", [], [])).1 = _
  rw [capStep_fold_type]

/-- C6: on the input Buy milk with the todo and shopping tags followed
by a second line, capture produces a task titled Buy milk with tags
todo and shopping in order and the second line as content; in general
each hash token of the header line becomes a tag with the hash
stripped, the last special tag in token order decides the type with
note as the default, and the remaining tokens joined by single spaces
form the title. -/
theorem capture_grammar :
    (∀ (id : String) (ts : Int),
      capture_item "Buy milk #todo #shopping\nDon\x27t forget eggs" id ts
        = ⟨id, "task", "Buy milk", some "Don\x27t forget eggs",
           ["todo", "shopping"], none, ts, none, none, none, none⟩) ∧
    (∀ (text id : String) (ts : Int),
      (capture_item text id ts).tags
        = ((splitWhitespace ((rustLines text).headD "")).filter
            (fun w => startsWithHash w)).map dropFirstChar ∧
      (capture_item text id ts).item_type
        = (((splitWhitespace ((rustLines text).headD "")).filterMap
            specialTagType).getLast?).getD "note" ∧
      (capture_item text id ts).title
        = joinWith " " ((splitWhitespace ((rustLines text).headD "")).filter
            (fun w => !(startsWithHash w)))) := by
  constructor
  · intro id ts
    rfl
  · intro text id ts
    exact ⟨capture_tags_eq text id ts, capture_type_eq text id ts,
      capture_title_eq text id ts⟩

/-- C9: capture of the empty text yields an empty title, no tags, the
default type note and empty content; and whenever every token of the
header line starts with a hash, the title is empty. -/
theorem capture_empty_and_hash_only :
    (∀ (id : String) (ts : Int),
      capture_item "" id ts
        = ⟨id, "note", "", some "", [], none, ts, none, none, none, none⟩) ∧
    (∀ (text id : String) (ts : Int),
      (∀ w ∈ splitWhitespace ((rustLines text).headD ""),
          startsWithHash w = true) →
      (capture_item text id ts).title = "") := by
  constructor
  · intro id ts
    rfl
  · intro text id ts hall
    rw [capture_title_eq]
    have hnil : (splitWhitespace ((rustLines text).headD "")).filter
        (fun w => !(startsWithHash w)) = [] := by
      rw [List.filter_eq_nil_iff]
      intro w hw
      simp [hall w hw]
    rw [hnil]
    rfl

theorem capture_empty_and_hash_only_witness :
    capture_item "" "w" 0
      = ⟨"w", "note", "", some "", [], none, 0, none, none, none, none⟩ ∧
    (∀ w ∈ splitWhitespace ((rustLines "#a #b").headD ""),
        startsWithHash w = true) ∧
    (capture_item "#a #b" "w" 0).title = "" :=
  ⟨capture_empty_and_hash_only.1 "w" 0, by decide,
   capture_empty_and_hash_only.2 "#a #b" "w" 0 (by decide)⟩
